import Mathlib

set_option maxHeartbeats 1000000

namespace Popple

/-- Go strings are modelled as lists of characters (byte-level and char-level
coincide on the characters the code inspects: '@', '+', '-', spaces, digits). -/
abbrev Chars := List Char

/-! ## Subjects and name resolution (marshalSubjects in the source) -/

/-- A parsed subject: one name plus its signed karma delta (`Subject` in the source). -/
structure Subject where
  name : Chars
  karma : Int
deriving DecidableEq, Repr

/-- The per-name resolution inside `marshalSubjects`: strip a single leading '@'
when the name is longer than one character (Go: `len(name) > 1 && name[0] == '@'`). -/
def resolveName (name : Chars) : Chars :=
  if 1 < name.length ∧ name.headD 'a' = '@' then name.drop 1 else name

/-- A Go `map[string]int` modelled as an insertion-ordered association list. -/
abbrev KarmaMap := List (Chars × Int)

/-- Go map read: returns the zero value 0 when the key is absent. -/
def mapGet : KarmaMap → Chars → Int
  | [], _ => 0
  | p :: m, k => if p.1 == k then p.2 else mapGet m k

/-- Go map write: update the existing key in place, or append a new key. -/
def mapSet : KarmaMap → Chars → Int → KarmaMap
  | [], k, v => [(k, v)]
  | p :: m, k, v => if p.1 == k then (k, v) :: m else p :: mapSet m k v

/-- `marshalSubjects` from the source: fold the subject list into net deltas
keyed by resolved name (`@user` and `user` share one key). -/
def marshalSubjects (subs : List Subject) : KarmaMap :=
  subs.foldl (fun subMap s =>
    let name := resolveName s.name
    mapSet subMap name (mapGet subMap name + s.karma)) []

/-- The net delta a list of subjects carries for one resolved name. -/
def netDelta (subs : List Subject) (n : Chars) : Int :=
  (subs.filterMap (fun s => if resolveName s.name = n then some s.karma else none)).sum

/-! ## The ledger store (Entity and Config rows, GORM calls in the source) -/

/-- A `KarmaEntry` row (`Entity` in the source), unique on (GuildID, Name). -/
structure Entity where
  guildID : String
  name : Chars
  karma : Int
deriving DecidableEq, Repr

/-- A `GuildConfig` row (`Config` in the source), unique on GuildID. -/
structure Config where
  guildID : String
  noAnnounce : Bool
deriving DecidableEq, Repr

/-- The ledger store backing the bot: karma entries and guild configs. -/
structure Store where
  entities : List Entity
  configs : List Config
deriving DecidableEq, Repr

/-- The (GuildID, Name) key predicate used by every `db.Where` on entities. -/
def entityKey (g : String) (n : Chars) (e : Entity) : Bool :=
  e.guildID == g && e.name == n

/-- `db.Where(&Entity{GuildID, Name}).First(&entity)`: point read, no write. -/
def firstEntity (es : List Entity) (g : String) (n : Chars) : Option Entity :=
  es.find? (entityKey g n)

/-- The karma stored for (g, n), if an entry exists. -/
def lookupKarma (es : List Entity) (g : String) (n : Chars) : Option Int :=
  (firstEntity es g n).map Entity.karma

/-- `db.Where(&Entity{GuildID, Name}).FirstOrCreate(&entity)`: find the row, or
insert a fresh one with the zero-value karma 0. -/
def firstOrCreateEntity (es : List Entity) (g : String) (n : Chars) :
    Entity × List Entity :=
  match es.find? (entityKey g n) with
  | some e => (e, es)
  | none => (⟨g, n, 0⟩, es ++ [⟨g, n, 0⟩])

/-- `db.Delete(entity)`: remove the row keyed (g, n). -/
def deleteEntity (es : List Entity) (g : String) (n : Chars) : List Entity :=
  es.filter (fun e => !(entityKey g n e))

/-- `db.Save(entity)`: persist karma k in the row keyed (g, n). -/
def saveEntity (es : List Entity) (g : String) (n : Chars) (k : Int) : List Entity :=
  es.map (fun e => if entityKey g n e then ⟨g, n, k⟩ else e)

/-- The GuildID key predicate used by every `db.Where` on configs. -/
def configKey (g : String) (c : Config) : Bool :=
  c.guildID == g

/-- `db.Where(&Config{GuildID}).FirstOrCreate(&cfg)`: find the config row, or
insert a fresh one with the zero-value NoAnnounce = false. -/
def firstOrCreateConfig (cs : List Config) (g : String) : Config × List Config :=
  match cs.find? (configKey g) with
  | some c => (c, cs)
  | none => (⟨g, false⟩, cs ++ [⟨g, false⟩])

/-- `db.Save(cfg)`: persist the NoAnnounce flag in the row keyed g. -/
def saveConfig (cs : List Config) (g : String) (noAnnounce : Bool) : List Config :=
  cs.map (fun c => if configKey g c then ⟨g, noAnnounce⟩ else c)

/-- The NoAnnounce flag stored for guild g, if a config row exists. -/
def lookupNoAnnounce (cs : List Config) (g : String) : Option Bool :=
  (cs.find? (configKey g)).map Config.noAnnounce

/-! ## ModKarma (the source's ModKarma handler, after subject parsing) -/

/-- One iteration of ModKarma's loop for a nonzero net delta: read-or-create the
entry, add the delta, delete on exact zero, save otherwise; the reply line is
(entity.Name, new karma). -/
def modStep (g : String) (es : List Entity) (n : Chars) (d : Int) :
    List Entity × (Chars × Int) :=
  let found := firstOrCreateEntity es g n
  let newKarma := found.1.karma + d
  let es2 := if newKarma = 0 then deleteEntity found.2 g n else saveEntity found.2 g n newKarma
  (es2, (found.1.name, newKarma))

/-- ModKarma's loop over the merged modifiers map: zero net deltas are skipped
(`continue`), every other key is applied via `modStep` and appends a reply line. -/
def modLoop (g : String) : KarmaMap → List Entity → List (Chars × Int) →
    List Entity × List (Chars × Int)
  | [], es, reply => (es, reply)
  | (n, d) :: rest, es, reply =>
    if d = 0 then modLoop g rest es reply
    else
      let step := modStep g es n d
      modLoop g rest step.1 (reply ++ [step.2])

/-- The outcome of one ModKarma call: the new store and the reply lines actually
sent to the channel (`none` when no message is sent). -/
structure ModResult where
  store : Store
  reply : Option (List (Chars × Int))
deriving DecidableEq, Repr

/-- `ModKarma` from the source, parameterized over the already-parsed subject
list: merge the subjects, run the mutation loop, return early when no line was
written, otherwise read-or-create the guild config and send the reply only when
NoAnnounce is false. -/
def ModKarma (store : Store) (g : String) (subs : List Subject) : ModResult :=
  let modifiers := marshalSubjects subs
  let looped := modLoop g modifiers store.entities []
  if looped.2.isEmpty then ⟨⟨looped.1, store.configs⟩, none⟩
  else
    let cfg := firstOrCreateConfig store.configs g
    ⟨⟨looped.1, cfg.2⟩, if !cfg.1.noAnnounce then some looped.2 else none⟩

/-- `SetAnnounce` from the source, after argument parsing: read-or-create the
guild config, store NoAnnounce = !on, persist. -/
def SetAnnounce (store : Store) (g : String) (onFlag : Bool) : Store :=
  let cfg := firstOrCreateConfig store.configs g
  ⟨store.entities, saveConfig cfg.2 g (!onFlag)⟩

/-- The zero-balance ledger invariant: no stored entry has karma 0. -/
def ZeroFree (es : List Entity) : Prop :=
  ∀ e ∈ es, e.karma ≠ 0

instance (es : List Entity) : Decidable (ZeroFree es) :=
  List.decidableBAll _ es

/-! ## Text scanning helpers (strings.Fields, strconv.Atoi) -/

/-- ASCII whitespace, as `strings.Fields` sees it in the message bodies here. -/
def isSpace (c : Char) : Bool :=
  c == ' ' || c == '\t' || c == '\n' || c == '\r' || c == '\x0b' || c == '\x0c'

/-- Accumulator loop behind `fields`; `cur` holds the current word reversed. -/
def fieldsAux : Chars → Chars → List Chars
  | [], cur => if cur = [] then [] else [cur.reverse]
  | c :: rest, cur =>
    if isSpace c then
      if cur = [] then fieldsAux rest [] else cur.reverse :: fieldsAux rest []
    else fieldsAux rest (c :: cur)

/-- Go `strings.Fields`: split around runs of whitespace, dropping empties. -/
def fields (s : Chars) : List Chars :=
  fieldsAux s []

/-- The numeric value of a decimal digit character. -/
def digitVal (c : Char) : Option Nat :=
  if '0' ≤ c ∧ c ≤ '9' then some (c.toNat - '0'.toNat) else none

/-- Decimal digits folded into a value; `none` on any non-digit. -/
def digitsValAux : Chars → Nat → Option Nat
  | [], acc => some acc
  | c :: rest, acc =>
    match digitVal c with
    | some d => digitsValAux rest (acc * 10 + d)
    | none => none

/-- A nonempty all-digit string's value. -/
def digitsVal : Chars → Option Nat
  | [] => none
  | c :: rest => digitsValAux (c :: rest) 0

def int64Max : Int := 9223372036854775807

def int64Min : Int := -9223372036854775808

/-- Go `strconv.Atoi`: optional sign, decimal digits, 64-bit range check. -/
def atoi (s : Chars) : Option Int :=
  let signed : Option Int :=
    match s with
    | '+' :: rest => (digitsVal rest).map (fun v => (v : Int))
    | '-' :: rest => (digitsVal rest).map (fun v => -(v : Int))
    | _ => (digitsVal s).map (fun v => (v : Int))
  match signed with
  | some v => if int64Min ≤ v ∧ v ≤ int64Max then some v else none
  | none => none

/-! ## Subject extraction (spec-modelled) -/

/-- Split a token into its core and its trailing run of identical operator
characters ('+' or '-'). -/
def opSuffix (tok : Chars) : Chars × Chars :=
  match tok.reverse with
  | [] => ([], [])
  | c :: _ =>
    if c == '+' || c == '-' then
      ((tok.reverse.dropWhile (fun d => d == c)).reverse, tok.reverse.takeWhile (fun d => d == c))
    else (tok, [])

/-- Modelled from the spec: `popple.ParseSubjects` is not under src (only its
callers are). §4.2: a whitespace-delimited token is a karma-affecting subject
only if immediately followed by two or more repeated identical operator
characters ('+' or '-'); the delta is the count of pairs of that character,
signed; any other token is a subject with delta 0 (so karma queries see it). -/
def ParseSubjects (text : Chars) : List Subject :=
  (fields text).map (fun tok =>
    let core := opSuffix tok
    if 2 ≤ core.2.length then
      ⟨core.1, if core.2.headD '+' == '+' then (core.2.length / 2 : Int)
               else -(core.2.length / 2 : Int)⟩
    else ⟨tok, 0⟩)

/-! ## Legacy synchronous handlers (CheckKarma and board in the source) -/

/-- Legacy `CheckKarma` from the source: resolve and merge the mentioned names,
then do a pure point read per merged name, reporting the zero value 0 for
absent rows; the reply is always sent, with no look at the guild config. -/
def CheckKarma (store : Store) (g : String) (message : Chars) :
    Store × List (Chars × Int) :=
  let subjects := marshalSubjects (ParseSubjects message)
  (store, subjects.map (fun p => (p.1, (lookupKarma store.entities g p.1).getD 0)))

/-- The legacy `board` handler's limit parsing from the source: default 10,
silently kept when the first token is absent, non-numeric, or not positive. -/
def legacyBoardLimit (message : Chars) : Int :=
  match fields message with
  | [] => 10
  | tok :: _ =>
    match atoi tok with
    | some limitArg => if limitArg > 0 then limitArg else 10
    | none => 10

/-! ## Command router (spec-modelled) -/

/-- Whether the pattern p begins the string s (Go strings.HasPrefix). -/
def startsWithChars : Chars → Chars → Bool
  | _, [] => true
  | [], _ :: _ => false
  | c :: s, d :: p => (d == c) && startsWithChars s p

/-- The five handler kinds `Mux.Route` can return. -/
inductive HandlerKind
  | announceHandler
  | bumpKarmaHandler
  | karmaHandler
  | leaderboardHandler
  | loserboardHandler
deriving DecidableEq, Repr

/-- The keyword table of the router: keyword text and the kind it selects. -/
def muxKeywords : List (Chars × HandlerKind) :=
  [("announce".data, .announceHandler), ("karma".data, .karmaHandler),
   ("top".data, .leaderboardHandler), ("bot".data, .loserboardHandler)]

/-- Modelled from the spec: `popple.Mux.Route` is not under src (only TestMux
is). §4.1: an unprefixed text is body of a BumpKarma route; a prefixed text has
the prefix removed (exact, case-sensitive) and the remainder inspected for a
leading keyword with the documented single-space-or-none separation (§9); for a
matched keyword the body is whatever trails the keyword, otherwise the whole
prefix-stripped remainder is the BumpKarma body. -/
def Route (pfx : Chars) (text : Chars) : HandlerKind × Chars :=
  if startsWithChars text pfx then
    let rest := text.drop pfx.length
    match muxKeywords.find? (fun kw =>
        startsWithChars rest (' ' :: kw.1) || startsWithChars rest kw.1) with
    | some kw =>
      if startsWithChars rest (' ' :: kw.1) then (kw.2, rest.drop (kw.1.length + 1))
      else (kw.2, rest.drop kw.1.length)
    | none => (.bumpKarmaHandler, rest)
  else (.bumpKarmaHandler, text)

/-! ## Argument parsers of the asynchronous path (spec-modelled) -/

/-- The user-input error taxonomy (§7). -/
inductive PopError
  | missingArgument
  | invalidArgument
deriving DecidableEq, Repr

/-- Trim leading and trailing whitespace. -/
def trimChars (s : Chars) : Chars :=
  ((s.dropWhile isSpace).reverse.dropWhile isSpace).reverse

/-- Modelled from the spec: `popple.ParseAnnounceArgs` is not under src (only
its caller is). §4.2: the body, trimmed, must begin case-insensitively with
`on`/`yes` (true) or `off`/`no` (false); an empty body is a missing argument,
anything else an invalid argument. Go-style (value, error) result. -/
def ParseAnnounceArgs (body : Chars) : Bool × Option PopError :=
  let b := (trimChars body).map Char.toLower
  if b = [] then (false, some .missingArgument)
  else if startsWithChars b "on".data || startsWithChars b "yes".data then (true, none)
  else if startsWithChars b "off".data || startsWithChars b "no".data then (false, none)
  else (false, some .invalidArgument)

/-- Modelled from the spec: `popple.ParseKarmaArgs` is not under src (only its
caller is). §4.2: the body is split on whitespace into names, each resolved
like a subject (leading '@' stripped); duplicates are kept and order preserved.
§7: an empty body is a missing argument. Go-style (value, error) result. -/
def ParseKarmaArgs (body : Chars) : List Chars × Option PopError :=
  match fields body with
  | [] => ([], some .missingArgument)
  | names => (names.map resolveName, none)

/-- Modelled from the spec: `popple.ParseLeaderboardArgs` (and its Loserboard
twin) is not under src (only its callers are). §4.2: an absent first token
yields the default limit 10; a first token that is not a positive non-zero
integer is an invalid argument. Go-style (value, error) result. -/
def ParseLeaderboardArgs (body : Chars) : Int × Option PopError :=
  match fields body with
  | [] => (10, none)
  | tok :: _ =>
    match atoi tok with
    | some limitArg => if limitArg > 0 then (limitArg, none) else (0, some .invalidArgument)
    | none => (0, some .invalidArgument)

/-- Modelled from the spec: `popple.ParseBumpKarmaArgs` is not under src (only
its caller is). §4.2: extract the subjects, merge them into net deltas per
resolved name, and drop the zero net deltas before they reach the ledger. -/
def ParseBumpKarmaArgs (body : Chars) : KarmaMap × Option PopError :=
  ((marshalSubjects (ParseSubjects body)).filter (fun p => !(p.2 == 0)), none)

/-! ## The event protocol (§4.5) and the publisher/consumer from the source -/

structure ReplyTo where
  channelID : String
deriving DecidableEq, Repr

structure ReactTo where
  channelID : String
  messageID : String
deriving DecidableEq, Repr

structure RequestChangeAnnounce where
  reactTo : ReactTo
  serverID : String
  noAnnounce : Bool
deriving DecidableEq, Repr

structure RequestBumpKarma where
  replyTo : ReplyTo
  serverID : String
  who : KarmaMap
deriving DecidableEq, Repr

structure RequestCheckKarma where
  replyTo : ReplyTo
  serverID : String
  who : List Chars
deriving DecidableEq, Repr

structure RequestCheckBoard where
  replyTo : ReplyTo
  serverID : String
  limit : Int
deriving DecidableEq, Repr

structure CheckedKarma where
  replyTo : ReplyTo
  who : KarmaMap
deriving DecidableEq, Repr

structure CheckedBoard where
  replyTo : ReplyTo
  board : List (Chars × Int)
deriving DecidableEq, Repr

structure ChangedAnnounce where
  reactTo : ReactTo
deriving DecidableEq, Repr

structure ChangedKarma where
  replyTo : ReplyTo
  announce : Bool
  who : KarmaMap
deriving DecidableEq, Repr

/-- The Event envelope: one wire object with at most one populated field among
the fixed request and response shapes (§4.5). -/
structure Event where
  requestChangeAnnounce : Option RequestChangeAnnounce := none
  requestBumpKarma : Option RequestBumpKarma := none
  requestCheckKarma : Option RequestCheckKarma := none
  requestCheckLeaderboard : Option RequestCheckBoard := none
  requestCheckLoserboard : Option RequestCheckBoard := none
  checkedKarma : Option CheckedKarma := none
  checkedLeaderboard : Option CheckedBoard := none
  checkedLoserboard : Option CheckedBoard := none
  changedAnnounce : Option ChangedAnnounce := none
  changedKarma : Option ChangedKarma := none
deriving DecidableEq, Repr

/-- One when an envelope field is populated, zero otherwise. -/
def countOpt {α : Type} (o : Option α) : Nat :=
  if o.isSome then 1 else 0

/-- How many envelope fields an Event populates. -/
def populatedFields (e : Event) : Nat :=
  countOpt e.requestChangeAnnounce + countOpt e.requestBumpKarma +
  countOpt e.requestCheckKarma + countOpt e.requestCheckLeaderboard +
  countOpt e.requestCheckLoserboard + countOpt e.checkedKarma +
  countOpt e.checkedLeaderboard + countOpt e.checkedLoserboard +
  countOpt e.changedAnnounce + countOpt e.changedKarma

/-- An outbound gateway call made by the bot's handlers. -/
inductive OutAct
  | sendMessage (channelID : String) (text : String)
  | addReaction (channelID messageID : String) (emoji : String)
deriving DecidableEq, Repr

def questionEmoji : String := "❓"

def announceUsage : String := "Valid announce settings are: on, off, yes, no"

def limitUsage : String := "The number of entries to list must be a positive non-zero integer"

/-- The publisher's AnnounceHandler case from the source: a missing or invalid
argument gets a ❓ reaction and a usage hint and the handler returns without
publishing; otherwise a RequestChangeAnnounce with NoAnnounce = !on is
published. -/
def publishAnnounce (guildID channelID messageID : String) (body : Chars) :
    List Event × List OutAct :=
  let parsed := ParseAnnounceArgs body
  match parsed.2 with
  | some _ =>
    ([], [.addReaction channelID messageID questionEmoji,
          .sendMessage channelID announceUsage])
  | none =>
    ([{ requestChangeAnnounce := some ⟨⟨channelID, messageID⟩, guildID, !parsed.1⟩ }], [])

/-- The publisher's BumpKarmaHandler case from the source: the parse error is
ignored and a RequestBumpKarma is always published. -/
def publishBumpKarma (guildID channelID : String) (body : Chars) :
    List Event × List OutAct :=
  let increments := (ParseBumpKarmaArgs body).1
  ([{ requestBumpKarma := some ⟨⟨channelID⟩, guildID, increments⟩ }], [])

/-- The publisher's KarmaHandler case from the source: on a parse error it adds
a ❓ reaction, but (unlike the announce case) it does not return, so the
RequestCheckKarma is still published with the zero-value name list. -/
def publishCheckKarma (guildID channelID messageID : String) (body : Chars) :
    List Event × List OutAct :=
  let parsed := ParseKarmaArgs body
  match parsed.2 with
  | some _ =>
    ([{ requestCheckKarma := some ⟨⟨channelID⟩, guildID, parsed.1⟩ }],
     [.addReaction channelID messageID questionEmoji])
  | none =>
    ([{ requestCheckKarma := some ⟨⟨channelID⟩, guildID, parsed.1⟩ }], [])

/-- The publisher's LeaderboardHandler case from the source: an invalid limit
gets a usage message and the handler returns without publishing; otherwise a
RequestCheckLeaderboard is published. -/
def publishLeaderboard (guildID channelID : String) (body : Chars) :
    List Event × List OutAct :=
  let parsed := ParseLeaderboardArgs body
  if parsed.2 = some .invalidArgument then
    ([], [.sendMessage channelID limitUsage])
  else
    ([{ requestCheckLeaderboard := some ⟨⟨channelID⟩, guildID, parsed.1⟩ }], [])

/-- The publisher's LoserboardHandler case from the source, identical to the
leaderboard case but for the published field. -/
def publishLoserboard (guildID channelID : String) (body : Chars) :
    List Event × List OutAct :=
  let parsed := ParseLeaderboardArgs body
  if parsed.2 = some .invalidArgument then
    ([], [.sendMessage channelID limitUsage])
  else
    ([{ requestCheckLoserboard := some ⟨⟨channelID⟩, guildID, parsed.1⟩ }], [])

/-- The publisher's whole per-message handler from the source (gateway calls
assumed to succeed): route the text, then run the matched case. Returns the
events published to the request queue and the gateway actions performed. -/
def publisherHandle (pfx : Chars) (guildID channelID messageID : String)
    (content : Chars) : List Event × List OutAct :=
  let routed := Route pfx content
  match routed.1 with
  | .announceHandler => publishAnnounce guildID channelID messageID routed.2
  | .bumpKarmaHandler => publishBumpKarma guildID channelID routed.2
  | .karmaHandler => publishCheckKarma guildID channelID messageID routed.2
  | .leaderboardHandler => publishLeaderboard guildID channelID routed.2
  | .loserboardHandler => publishLoserboard guildID channelID routed.2

/-- What the consumer does with one delivered envelope. -/
inductive ConsumerAct
  | sentLevels (channelID : String) (who : KarmaMap)
  | sentBoard (channelID : String) (board : List (Chars × Int))
  | reacted (channelID messageID : String)
  | suppressed
  | discarded
deriving DecidableEq, Repr

/-- The consumer's dispatch from the source: a Go switch whose first populated
case wins, in the order CheckedKarma, CheckedLeaderboard, CheckedLoserboard,
ChangedAnnounce, ChangedKarma; everything else is discarded. A ChangedKarma
with Announce = false is dropped without sending anything. -/
def consume (e : Event) : ConsumerAct :=
  match e.checkedKarma with
  | some rsp => .sentLevels rsp.replyTo.channelID rsp.who
  | none =>
  match e.checkedLeaderboard with
  | some rsp => .sentBoard rsp.replyTo.channelID rsp.board
  | none =>
  match e.checkedLoserboard with
  | some rsp => .sentBoard rsp.replyTo.channelID rsp.board
  | none =>
  match e.changedAnnounce with
  | some rsp => .reacted rsp.reactTo.channelID rsp.reactTo.messageID
  | none =>
  match e.changedKarma with
  | some rsp =>
    if !rsp.announce then .suppressed
    else .sentLevels rsp.replyTo.channelID rsp.who
  | none => .discarded

/-! ## List helper lemmas -/

theorem findq_filter {α : Type} (p q : α → Bool) (l : List α)
    (h : ∀ x, p x = true → q x = true) : (l.filter q).find? p = l.find? p := by
  induction l with
  | nil => rfl
  | cons a l ih =>
    by_cases hp : p a = true
    · simp [List.filter_cons, h a hp, List.find?_cons, hp]
    · rw [Bool.not_eq_true] at hp
      cases hq : q a
      · simp [List.filter_cons, hq, List.find?_cons, hp, ih]
      · simp [List.filter_cons, hq, List.find?_cons, hp, ih]

theorem findq_map {α : Type} (p : α → Bool) (f : α → α) (l : List α)
    (h : ∀ x, p (f x) = p x) : (l.map f).find? p = (l.find? p).map f := by
  induction l with
  | nil => rfl
  | cons a l ih =>
    cases hp : p a
    · simp [List.map_cons, List.find?_cons, h a, hp, ih]
    · simp [List.map_cons, List.find?_cons, h a, hp]

theorem findq_append {α : Type} (p : α → Bool) (l₁ l₂ : List α) :
    (l₁ ++ l₂).find? p = ((l₁.find? p).elim (l₂.find? p) some) := by
  induction l₁ with
  | nil => rfl
  | cons a l ih =>
    cases hp : p a
    · simp [List.find?_cons, hp, ih]
    · simp [List.find?_cons, hp]

/-! ## KarmaMap lemmas (Go map model) -/

theorem mapGet_mapSet_self (m : KarmaMap) (k : Chars) (v : Int) :
    mapGet (mapSet m k v) k = v := by
  induction m with
  | nil => simp [mapSet, mapGet]
  | cons x m ih =>
    by_cases hx : (x.1 == k) = true
    · simp [mapSet, hx, mapGet]
    · simp only [Bool.not_eq_true] at hx
      simp [mapSet, hx, mapGet, ih]

theorem mapGet_mapSet_other (m : KarmaMap) (k k' : Chars) (v : Int) (h : k' ≠ k) :
    mapGet (mapSet m k v) k' = mapGet m k' := by
  have hkk : (k == k') = false := by
    simp only [beq_eq_false_iff_ne, ne_eq]
    intro hh
    exact h hh.symm
  induction m with
  | nil => simp [mapSet, mapGet, hkk]
  | cons x m ih =>
    by_cases hx : (x.1 == k) = true
    · have hx' : (x.1 == k') = false := by
        have hxk : x.1 = k := by simpa using hx
        simp only [beq_eq_false_iff_ne, ne_eq, hxk]
        intro hh
        exact h hh.symm
      simp [mapSet, hx, mapGet, hkk, hx']
    · simp only [Bool.not_eq_true] at hx
      cases hx' : (x.1 == k') <;> simp [mapSet, hx, mapGet, hx', ih]

theorem keys_mapSet (m : KarmaMap) (k : Chars) (v : Int) :
    (mapSet m k v).map Prod.fst = if k ∈ m.map Prod.fst then m.map Prod.fst
      else m.map Prod.fst ++ [k] := by
  induction m with
  | nil => simp [mapSet]
  | cons x m ih =>
    by_cases hx : (x.1 == k) = true
    · have : x.1 = k := by simpa using hx
      simp [mapSet, hx, this]
    · simp only [Bool.not_eq_true] at hx
      have hne : ¬ k = x.1 := by
        intro hh
        simp [hh] at hx
      by_cases hmem : k ∈ m.map Prod.fst
      · simp [mapSet, hx, hmem, ih, hne]
      · simp [mapSet, hx, hmem, ih, hne]

theorem nodup_keys_mapSet (m : KarmaMap) (k : Chars) (v : Int)
    (h : (m.map Prod.fst).Nodup) : ((mapSet m k v).map Prod.fst).Nodup := by
  rw [keys_mapSet]
  by_cases hmem : k ∈ m.map Prod.fst
  · simpa [hmem]
  · simp only [hmem, if_false]
    simpa [List.nodup_append, hmem] using h

/-- In a map with distinct keys, every stored pair agrees with `mapGet`. -/
theorem mapGet_of_mem (m : KarmaMap) (h : (m.map Prod.fst).Nodup) :
    ∀ p ∈ m, mapGet m p.1 = p.2 := by
  induction m with
  | nil => intro p hp; cases hp
  | cons x m ih =>
    intro p hp
    rcases List.mem_cons.mp hp with hpx | hpm
    · subst hpx
      simp [mapGet]
    · have hx : (x.1 == p.1) = false := by
        have hnot : x.1 ∉ m.map Prod.fst := (List.nodup_cons.mp h).1
        have hmem : p.1 ∈ m.map Prod.fst := List.mem_map.mpr ⟨p, hpm, rfl⟩
        simp only [beq_eq_false_iff_ne, ne_eq]
        intro hh
        exact hnot (hh ▸ hmem)
      simp [mapGet, hx, ih (List.nodup_cons.mp h).2 p hpm]

theorem mem_keys_mapSet (m : KarmaMap) (k : Chars) (v : Int) (k' : Chars) :
    k' ∈ (mapSet m k v).map Prod.fst ↔ k' ∈ m.map Prod.fst ∨ k' = k := by
  rw [keys_mapSet]
  by_cases hmem : k ∈ m.map Prod.fst
  · simp only [hmem, if_true]
    constructor
    · exact Or.inl
    · rintro (h | rfl)
      · exact h
      · exact hmem
  · simp [hmem]

/-! ## marshalSubjects lemmas -/

theorem netDelta_cons (s : Subject) (subs : List Subject) (n : Chars) :
    netDelta (s :: subs) n =
      (if resolveName s.name = n then s.karma else 0) + netDelta subs n := by
  unfold netDelta
  by_cases h : resolveName s.name = n <;> simp [List.filterMap_cons, h]

theorem mapGet_marshal_fold (subs : List Subject) (acc : KarmaMap) (n : Chars) :
    mapGet (subs.foldl (fun subMap s =>
      let name := resolveName s.name
      mapSet subMap name (mapGet subMap name + s.karma)) acc) n =
    mapGet acc n + netDelta subs n := by
  induction subs generalizing acc with
  | nil => simp [netDelta]
  | cons s subs ih =>
    rw [List.foldl_cons, ih, netDelta_cons]
    by_cases h : resolveName s.name = n
    · rw [if_pos h, h, mapGet_mapSet_self]
      ring
    · rw [if_neg h, mapGet_mapSet_other _ _ _ _ (fun hh => h hh.symm)]
      ring

/-- Merging: the merged map reports exactly the net delta of each resolved name. -/
theorem mapGet_marshalSubjects (subs : List Subject) (n : Chars) :
    mapGet (marshalSubjects subs) n = netDelta subs n := by
  have h := mapGet_marshal_fold subs [] n
  simpa [marshalSubjects, mapGet] using h

theorem nodup_keys_marshal_fold (subs : List Subject) (acc : KarmaMap)
    (h : (acc.map Prod.fst).Nodup) :
    (((subs.foldl (fun subMap s =>
      let name := resolveName s.name
      mapSet subMap name (mapGet subMap name + s.karma)) acc)).map Prod.fst).Nodup := by
  induction subs generalizing acc with
  | nil => exact h
  | cons s subs ih => exact ih _ (nodup_keys_mapSet _ _ _ h)

/-- The merged map has no duplicate keys. -/
theorem nodup_keys_marshalSubjects (subs : List Subject) :
    ((marshalSubjects subs).map Prod.fst).Nodup :=
  nodup_keys_marshal_fold subs [] (by simp)

theorem mem_keys_marshal_fold (subs : List Subject) (acc : KarmaMap) (n : Chars) :
    n ∈ ((subs.foldl (fun subMap s =>
      let name := resolveName s.name
      mapSet subMap name (mapGet subMap name + s.karma)) acc)).map Prod.fst ↔
    n ∈ acc.map Prod.fst ∨ ∃ s ∈ subs, resolveName s.name = n := by
  induction subs generalizing acc with
  | nil => simp
  | cons s subs ih =>
    rw [List.foldl_cons, ih, mem_keys_mapSet]
    constructor
    · rintro ((h | rfl) | ⟨t, ht, rfl⟩)
      · exact Or.inl h
      · exact Or.inr ⟨s, List.mem_cons_self s subs, rfl⟩
      · exact Or.inr ⟨t, List.mem_cons_of_mem s ht, rfl⟩
    · rintro (h | ⟨t, ht, rfl⟩)
      · exact Or.inl (Or.inl h)
      · rcases List.mem_cons.mp ht with rfl | ht'
        · exact Or.inl (Or.inr rfl)
        · exact Or.inr ⟨t, ht', rfl⟩

/-- A resolved name appears as a merged key exactly when some subject resolves to it. -/
theorem mem_keys_marshalSubjects (subs : List Subject) (n : Chars) :
    n ∈ (marshalSubjects subs).map Prod.fst ↔ ∃ s ∈ subs, resolveName s.name = n := by
  have h := mem_keys_marshal_fold subs [] n
  simpa [marshalSubjects] using h

/-! ## Entity store lemmas -/

theorem entityKey_iff (g : String) (n : Chars) (e : Entity) :
    entityKey g n e = true ↔ e.guildID = g ∧ e.name = n := by
  simp [entityKey]

theorem entityKey_self (g : String) (n : Chars) (k : Int) :
    entityKey g n ⟨g, n, k⟩ = true := by
  simp [entityKey]

theorem entityKey_other (g : String) (n : Chars) (k : Int) (g' : String) (n' : Chars)
    (h : ¬(g' = g ∧ n' = n)) : entityKey g' n' ⟨g, n, k⟩ = false := by
  rw [Bool.eq_false_iff]
  intro hk
  rw [entityKey_iff] at hk
  exact h ⟨hk.1.symm, hk.2.symm⟩

theorem firstOrCreateEntity_key (es : List Entity) (g : String) (n : Chars) :
    (firstOrCreateEntity es g n).1.guildID = g ∧ (firstOrCreateEntity es g n).1.name = n := by
  unfold firstOrCreateEntity
  cases h : es.find? (entityKey g n) with
  | none => simp
  | some e =>
    have := List.find?_some h
    rw [entityKey_iff] at this
    simpa using this

theorem firstOrCreateEntity_karma (es : List Entity) (g : String) (n : Chars) :
    (firstOrCreateEntity es g n).1.karma = (lookupKarma es g n).getD 0 := by
  unfold firstOrCreateEntity lookupKarma firstEntity
  cases h : es.find? (entityKey g n) <;> simp [h]

theorem firstEntity_firstOrCreate_self (es : List Entity) (g : String) (n : Chars) :
    firstEntity (firstOrCreateEntity es g n).2 g n = some (firstOrCreateEntity es g n).1 := by
  unfold firstOrCreateEntity firstEntity
  cases h : es.find? (entityKey g n) with
  | some e => simpa using h
  | none => simp [findq_append, h, List.find?_cons, entityKey_self]

theorem firstEntity_firstOrCreate_other (es : List Entity) (g : String) (n : Chars)
    (g' : String) (n' : Chars) (h : ¬(g' = g ∧ n' = n)) :
    firstEntity (firstOrCreateEntity es g n).2 g' n' = firstEntity es g' n' := by
  unfold firstOrCreateEntity firstEntity
  cases hf : es.find? (entityKey g n) with
  | some e => rfl
  | none =>
    simp only []
    rw [findq_append]
    cases hg : es.find? (entityKey g' n') with
    | some e => simp
    | none => simp [List.find?_cons, entityKey_other g n 0 g' n' h]

theorem firstEntity_delete_self (es : List Entity) (g : String) (n : Chars) :
    firstEntity (deleteEntity es g n) g n = none := by
  unfold firstEntity deleteEntity
  rw [List.find?_eq_none]
  intro x hx
  have h2 := (List.mem_filter.mp hx).2
  rw [Bool.not_eq_true'] at h2
  simp [h2]

theorem firstEntity_delete_other (es : List Entity) (g : String) (n : Chars)
    (g' : String) (n' : Chars) (h : ¬(g' = g ∧ n' = n)) :
    firstEntity (deleteEntity es g n) g' n' = firstEntity es g' n' := by
  unfold firstEntity deleteEntity
  apply findq_filter
  intro x hx
  rw [entityKey_iff] at hx
  rw [Bool.not_eq_true']
  rw [Bool.eq_false_iff]
  intro hk
  rw [entityKey_iff] at hk
  exact h ⟨hx.1 ▸ hk.1 ▸ rfl, hx.2 ▸ hk.2 ▸ rfl⟩

theorem saveEntity_pres_key (g : String) (n : Chars) (k : Int) (g' : String) (n' : Chars) :
    ∀ x : Entity, entityKey g' n' (if entityKey g n x then ⟨g, n, k⟩ else x) = entityKey g' n' x := by
  intro x
  by_cases hq : entityKey g n x = true
  · rw [if_pos hq]
    rw [entityKey_iff] at hq
    simp [entityKey, hq.1, hq.2]
  · rw [Bool.not_eq_true] at hq
    simp [hq]

theorem firstEntity_save_self (es : List Entity) (g : String) (n : Chars) (k : Int)
    (h : (firstEntity es g n).isSome) :
    firstEntity (saveEntity es g n k) g n = some ⟨g, n, k⟩ := by
  unfold firstEntity saveEntity
  rw [findq_map _ _ _ (saveEntity_pres_key g n k g n)]
  obtain ⟨e, he⟩ := Option.isSome_iff_exists.mp h
  unfold firstEntity at he
  rw [he]
  have hp := List.find?_some he
  simp [hp]

theorem firstEntity_save_other (es : List Entity) (g : String) (n : Chars) (k : Int)
    (g' : String) (n' : Chars) (h : ¬(g' = g ∧ n' = n)) :
    firstEntity (saveEntity es g n k) g' n' = firstEntity es g' n' := by
  unfold firstEntity saveEntity
  rw [findq_map _ _ _ (saveEntity_pres_key g n k g' n')]
  cases hf : es.find? (entityKey g' n') with
  | none => rfl
  | some e =>
    have hp := List.find?_some hf
    have hne : entityKey g n e = false := by
      rw [Bool.eq_false_iff]
      intro hk
      rw [entityKey_iff] at hp hk
      exact h ⟨hp.1 ▸ hk.1 ▸ rfl, hp.2 ▸ hk.2 ▸ rfl⟩
    simp [hne]

theorem mem_deleteEntity (e : Entity) (es : List Entity) (g : String) (n : Chars) :
    e ∈ deleteEntity es g n ↔ e ∈ es ∧ entityKey g n e = false := by
  unfold deleteEntity
  rw [List.mem_filter]
  simp [Bool.not_eq_true']

theorem mem_saveEntity (e : Entity) (es : List Entity) (g : String) (n : Chars) (k : Int)
    (h : e ∈ saveEntity es g n k) :
    e = ⟨g, n, k⟩ ∨ (e ∈ es ∧ entityKey g n e = false) := by
  unfold saveEntity at h
  obtain ⟨x, hx, hfx⟩ := List.mem_map.mp h
  by_cases hq : entityKey g n x = true
  · rw [if_pos hq] at hfx
    exact Or.inl hfx.symm
  · rw [Bool.not_eq_true] at hq
    rw [if_neg (by simp [hq])] at hfx
    exact Or.inr ⟨hfx ▸ hx, hfx ▸ hq⟩

/-! ## modStep lemmas -/

theorem modStep_line (g : String) (es : List Entity) (n : Chars) (d : Int) :
    (modStep g es n d).2 = (n, (lookupKarma es g n).getD 0 + d) := by
  unfold modStep
  simp only []
  rw [(firstOrCreateEntity_key es g n).2, firstOrCreateEntity_karma]

theorem lookup_modStep_self (g : String) (es : List Entity) (n : Chars) (d : Int) :
    lookupKarma (modStep g es n d).1 g n =
      (if (lookupKarma es g n).getD 0 + d = 0 then none
       else some ((lookupKarma es g n).getD 0 + d)) := by
  unfold modStep
  simp only [firstOrCreateEntity_karma]
  by_cases hz : (lookupKarma es g n).getD 0 + d = 0
  · rw [if_pos hz, if_pos hz]
    unfold lookupKarma
    rw [firstEntity_delete_self]
    rfl
  · rw [if_neg hz, if_neg hz]
    unfold lookupKarma
    rw [firstEntity_save_self _ _ _ _ (by rw [firstEntity_firstOrCreate_self]; rfl)]
    rfl

theorem lookup_modStep_other (g : String) (es : List Entity) (n : Chars) (d : Int)
    (g' : String) (n' : Chars) (h : ¬(g' = g ∧ n' = n)) :
    lookupKarma (modStep g es n d).1 g' n' = lookupKarma es g' n' := by
  unfold modStep
  simp only []
  by_cases hz : (firstOrCreateEntity es g n).1.karma + d = 0
  · rw [if_pos hz]
    unfold lookupKarma
    rw [firstEntity_delete_other _ _ _ _ _ h, firstEntity_firstOrCreate_other _ _ _ _ _ h]
  · rw [if_neg hz]
    unfold lookupKarma
    rw [firstEntity_save_other _ _ _ _ _ _ h, firstEntity_firstOrCreate_other _ _ _ _ _ h]

theorem zeroFree_modStep (g : String) (es : List Entity) (n : Chars) (d : Int)
    (h : ZeroFree es) : ZeroFree (modStep g es n d).1 := by
  unfold modStep
  simp only []
  set es1 := (firstOrCreateEntity es g n).2 with hes1
  have hes1mem : ∀ e : Entity, e ∈ es1 → e ∈ es ∨ e = ⟨g, n, 0⟩ := by
    intro e he
    rw [hes1] at he
    unfold firstOrCreateEntity at he
    cases hf : es.find? (entityKey g n) with
    | some x => rw [hf] at he; exact Or.inl he
    | none =>
      rw [hf] at he
      rcases List.mem_append.mp he with h1 | h1
      · exact Or.inl h1
      · exact Or.inr (List.mem_singleton.mp h1)
  by_cases hz : (firstOrCreateEntity es g n).1.karma + d = 0
  · rw [if_pos hz]
    intro e he
    rw [mem_deleteEntity] at he
    rcases hes1mem e he.1 with h1 | h1
    · exact h e h1
    · rw [h1] at he
      rw [entityKey_self] at he
      exact absurd he.2 (by simp)
  · rw [if_neg hz]
    intro e he
    rcases mem_saveEntity e es1 g n _ he with h1 | h1
    · rw [h1]
      have := firstOrCreateEntity_karma es g n
      intro hk
      exact hz (by simpa using hk)
    · rcases hes1mem e h1.1 with h2 | h2
      · exact h e h2
      · rw [h2] at h1
        rw [entityKey_self] at h1
        exact absurd h1.2 (by simp)

/-! ## modLoop lemmas -/

theorem modLoop_entities_acc (g : String) (mods : KarmaMap) (es : List Entity)
    (r : List (Chars × Int)) :
    (modLoop g mods es r).1 = (modLoop g mods es []).1 := by
  induction mods generalizing es r with
  | nil => rfl
  | cons p rest ih =>
    obtain ⟨n, d⟩ := p
    by_cases hd : d = 0
    · simp only [modLoop, if_pos hd]
      exact ih _ _
    · simp only [modLoop, if_neg hd]
      rw [ih _ (r ++ [(modStep g es n d).2]), ih _ ([] ++ [(modStep g es n d).2])]

theorem modLoop_reply_acc (g : String) (mods : KarmaMap) (es : List Entity)
    (r : List (Chars × Int)) :
    (modLoop g mods es r).2 = r ++ (modLoop g mods es []).2 := by
  induction mods generalizing es r with
  | nil => simp [modLoop]
  | cons p rest ih =>
    obtain ⟨n, d⟩ := p
    by_cases hd : d = 0
    · simp only [modLoop, if_pos hd]
      exact ih _ _
    · simp only [modLoop, if_neg hd]
      rw [ih _ (r ++ [(modStep g es n d).2]), ih _ ([] ++ [(modStep g es n d).2])]
      simp

theorem lookup_modLoop_frame (g : String) (mods : KarmaMap) (es : List Entity)
    (r : List (Chars × Int)) (g' : String) (n' : Chars)
    (h : ∀ p ∈ mods, p.2 ≠ 0 → ¬(g' = g ∧ n' = p.1)) :
    lookupKarma (modLoop g mods es r).1 g' n' = lookupKarma es g' n' := by
  induction mods generalizing es r with
  | nil => rfl
  | cons p rest ih =>
    obtain ⟨n, d⟩ := p
    by_cases hd : d = 0
    · simp only [modLoop, if_pos hd]
      exact ih _ _ (fun q hq => h q (List.mem_cons_of_mem _ hq))
    · simp only [modLoop, if_neg hd]
      rw [ih _ _ (fun q hq => h q (List.mem_cons_of_mem _ hq))]
      exact lookup_modStep_other g es n d g' n' (h (n, d) (List.mem_cons_self _ _) hd)

theorem lookup_modLoop_mem (g : String) (mods : KarmaMap) (es : List Entity)
    (r : List (Chars × Int)) (n : Chars) (d : Int)
    (hnodup : (mods.map Prod.fst).Nodup) (hmem : (n, d) ∈ mods) (hd : d ≠ 0) :
    lookupKarma (modLoop g mods es r).1 g n =
      (if (lookupKarma es g n).getD 0 + d = 0 then none
       else some ((lookupKarma es g n).getD 0 + d)) := by
  induction mods generalizing es r with
  | nil => cases hmem
  | cons p rest ih =>
    obtain ⟨n₁, d₁⟩ := p
    have hnodup' : (rest.map Prod.fst).Nodup := (List.nodup_cons.mp (by simpa using hnodup)).2
    have hhead : n₁ ∉ rest.map Prod.fst := (List.nodup_cons.mp (by simpa using hnodup)).1
    rcases List.mem_cons.mp hmem with hhd | htl
    · have hn : n₁ = n := congrArg Prod.fst hhd.symm
      have hdd : d₁ = d := congrArg Prod.snd hhd.symm
      subst hn
      subst hdd
      simp only [modLoop, if_neg hd]
      rw [lookup_modLoop_frame g rest _ _ g n₁ ?frame]
      · exact lookup_modStep_self g es n₁ d₁
      case frame =>
        intro q hq hq2
        rintro ⟨-, rfl⟩
        exact hhead (List.mem_map.mpr ⟨q, hq, rfl⟩)
    · have hn1 : n₁ ≠ n := by
        intro hh
        subst hh
        exact hhead (List.mem_map.mpr ⟨(n₁, d), htl, rfl⟩)
      by_cases hd1 : d₁ = 0
      · simp only [modLoop, if_pos hd1]
        exact ih _ _ hnodup' htl
      · simp only [modLoop, if_neg hd1]
        rw [ih _ _ hnodup' htl,
          lookup_modStep_other g es n₁ d₁ g n (by rintro ⟨-, rfl⟩; exact hn1 rfl)]

theorem zeroFree_modLoop (g : String) (mods : KarmaMap) (es : List Entity)
    (r : List (Chars × Int)) (h : ZeroFree es) : ZeroFree (modLoop g mods es r).1 := by
  induction mods generalizing es r with
  | nil => exact h
  | cons p rest ih =>
    obtain ⟨n, d⟩ := p
    by_cases hd : d = 0
    · simp only [modLoop, if_pos hd]
      exact ih _ _ h
    · simp only [modLoop, if_neg hd]
      exact ih _ _ (zeroFree_modStep g es n d h)

theorem modLoop_reply_mem (g : String) (mods : KarmaMap) (es : List Entity)
    (r : List (Chars × Int)) :
    ∀ line ∈ (modLoop g mods es r).2,
      line ∈ r ∨ ∃ p ∈ mods, p.2 ≠ 0 ∧ line.1 = p.1 := by
  induction mods generalizing es r with
  | nil =>
    intro line hline
    exact Or.inl hline
  | cons p rest ih =>
    obtain ⟨n, d⟩ := p
    intro line hline
    by_cases hd : d = 0
    · simp only [modLoop, if_pos hd] at hline
      rcases ih _ _ line hline with h1 | ⟨q, hq, hq2⟩
      · exact Or.inl h1
      · exact Or.inr ⟨q, List.mem_cons_of_mem _ hq, hq2⟩
    · simp only [modLoop, if_neg hd] at hline
      rcases ih _ _ line hline with h1 | ⟨q, hq, hq2⟩
      · rcases List.mem_append.mp h1 with h2 | h2
        · exact Or.inl h2
        · refine Or.inr ⟨(n, d), List.mem_cons_self _ _, hd, ?_⟩
          rw [List.mem_singleton.mp h2, modStep_line]
      · exact Or.inr ⟨q, List.mem_cons_of_mem _ hq, hq2⟩

theorem modLoop_reply_empty_iff (g : String) (mods : KarmaMap) (es : List Entity)
    (r : List (Chars × Int)) :
    (modLoop g mods es r).2 = [] ↔ r = [] ∧ ∀ p ∈ mods, p.2 = 0 := by
  induction mods generalizing es r with
  | nil => simp [modLoop]
  | cons p rest ih =>
    obtain ⟨n, d⟩ := p
    by_cases hd : d = 0
    · simp only [modLoop, if_pos hd]
      rw [ih]
      constructor
      · rintro ⟨h1, h2⟩
        refine ⟨h1, ?_⟩
        intro q hq
        rcases List.mem_cons.mp hq with rfl | hq'
        · exact hd
        · exact h2 q hq'
      · rintro ⟨h1, h2⟩
        exact ⟨h1, fun q hq => h2 q (List.mem_cons_of_mem _ hq)⟩
    · simp only [modLoop, if_neg hd]
      rw [ih]
      constructor
      · rintro ⟨h1, -⟩
        exact absurd h1 (by simp)
      · rintro ⟨-, h2⟩
        exact absurd (h2 (n, d) (List.mem_cons_self _ _)) hd

/-! ## ModKarma and config lemmas -/

theorem ModKarma_entities (store : Store) (g : String) (subs : List Subject) :
    (ModKarma store g subs).store.entities =
      (modLoop g (marshalSubjects subs) store.entities []).1 := by
  unfold ModKarma
  by_cases h : (modLoop g (marshalSubjects subs) store.entities []).2.isEmpty <;> simp [h]

theorem ModKarma_reply (store : Store) (g : String) (subs : List Subject) :
    (ModKarma store g subs).reply =
      (if (modLoop g (marshalSubjects subs) store.entities []).2.isEmpty then none
       else if (firstOrCreateConfig store.configs g).1.noAnnounce then none
       else some (modLoop g (marshalSubjects subs) store.entities []).2) := by
  unfold ModKarma
  by_cases h : (modLoop g (marshalSubjects subs) store.entities []).2.isEmpty
  · simp [h]
  · by_cases h2 : (firstOrCreateConfig store.configs g).1.noAnnounce <;> simp [h, h2]

theorem configKey_self (g : String) (b : Bool) : configKey g ⟨g, b⟩ = true := by
  simp [configKey]

theorem findConfig_firstOrCreate (cs : List Config) (g : String) :
    (firstOrCreateConfig cs g).2.find? (configKey g) =
      some (firstOrCreateConfig cs g).1 := by
  unfold firstOrCreateConfig
  cases h : cs.find? (configKey g) with
  | some c => simpa using h
  | none => simp [findq_append, h, List.find?_cons, configKey_self]

theorem findConfig_setAnnounce (store : Store) (g : String) (onFlag : Bool) :
    (SetAnnounce store g onFlag).configs.find? (configKey g) = some ⟨g, !onFlag⟩ := by
  unfold SetAnnounce saveConfig
  simp only []
  rw [findq_map _ _ _ ?pres]
  · rw [findConfig_firstOrCreate]
    have := List.find?_some (findConfig_firstOrCreate store.configs g)
    simp [this]
  case pres =>
    intro x
    by_cases hx : configKey g x = true
    · rw [if_pos hx]
      have hx' : x.guildID = g := by simpa [configKey] using hx
      simp [configKey, hx']
    · rw [Bool.not_eq_true] at hx
      simp [hx]

theorem firstOrCreateConfig_after_set (store : Store) (g : String) (onFlag : Bool) :
    (firstOrCreateConfig (SetAnnounce store g onFlag).configs g).1 = ⟨g, !onFlag⟩ := by
  unfold firstOrCreateConfig
  rw [findConfig_setAnnounce]

/-! ## Router and envelope helper lemmas -/

theorem startsWithChars_nil (s : Chars) : startsWithChars s [] = true := by
  cases s <;> rfl

theorem startsWithChars_append (pfx s : Chars) : startsWithChars (pfx ++ s) pfx = true := by
  induction pfx with
  | nil => exact startsWithChars_nil s
  | cons c p ih => simp [startsWithChars, ih]

theorem countOpt_eq_zero {α : Type} (o : Option α) : countOpt o = 0 ↔ o = none := by
  cases o <;> simp [countOpt]

/-- Every name a message mentions shows up (resolved) in the legacy CheckKarma
reply, with its stored karma or the default 0. -/
theorem checkKarma_mem_reply (store : Store) (g : String) (msg : Chars) :
    ∀ s ∈ ParseSubjects msg,
      (resolveName s.name, (lookupKarma store.entities g (resolveName s.name)).getD 0)
        ∈ (CheckKarma store g msg).2 := by
  intro s hs
  have hkey : resolveName s.name ∈ (marshalSubjects (ParseSubjects msg)).map Prod.fst :=
    (mem_keys_marshalSubjects _ _).mpr ⟨s, hs, rfl⟩
  obtain ⟨p, hp, hp1⟩ := List.mem_map.mp hkey
  unfold CheckKarma
  simp only []
  exact List.mem_map.mpr ⟨p, hp, by rw [hp1]⟩

/-! ## Claim theorems -/

/-- C1: Zero-balance ledger invariant: starting from a store with no zero-karma
entries, after ModKarma every stored entry still has nonzero karma; moreover,
for every merged subject with nonzero net delta d, the entry for that name ends
at old + d when that is nonzero, and is deleted (absent) when old + d = 0. -/
theorem zero_balance_invariant (store : Store) (g : String) (subs : List Subject)
    (hzf : ZeroFree store.entities) :
    ZeroFree (ModKarma store g subs).store.entities ∧
    (∀ n d, (n, d) ∈ marshalSubjects subs → d ≠ 0 →
      lookupKarma (ModKarma store g subs).store.entities g n =
        (if (lookupKarma store.entities g n).getD 0 + d = 0 then none
         else some ((lookupKarma store.entities g n).getD 0 + d))) := by
  constructor
  · rw [ModKarma_entities]
    exact zeroFree_modLoop _ _ _ _ hzf
  · intro n d hmem hd
    rw [ModKarma_entities]
    exact lookup_modLoop_mem g _ store.entities [] n d
      (nodup_keys_marshalSubjects subs) hmem hd

/-- Witness for C1 at a concrete store: bob at 5 bumped by -5 is deleted, ann
created at 2 stays. -/
theorem zero_balance_invariant_check :
    ZeroFree [⟨"g", "bob".data, 5⟩] ∧
    ZeroFree (ModKarma ⟨[⟨"g", "bob".data, 5⟩], []⟩ "g"
        [⟨"bob".data, -5⟩, ⟨"ann".data, 2⟩]).store.entities ∧
    lookupKarma (ModKarma ⟨[⟨"g", "bob".data, 5⟩], []⟩ "g"
        [⟨"bob".data, -5⟩, ⟨"ann".data, 2⟩]).store.entities "g" "bob".data = none ∧
    lookupKarma (ModKarma ⟨[⟨"g", "bob".data, 5⟩], []⟩ "g"
        [⟨"bob".data, -5⟩, ⟨"ann".data, 2⟩]).store.entities "g" "ann".data = some 2 := by
  have h := zero_balance_invariant ⟨[⟨"g", "bob".data, 5⟩], []⟩ "g"
    [⟨"bob".data, -5⟩, ⟨"ann".data, 2⟩] (by decide)
  refine ⟨by decide, h.1, ?_, ?_⟩
  · have hb := h.2 "bob".data (-5) (by decide) (by decide)
    rw [hb]
    decide
  · have ha := h.2 "ann".data 2 (by decide) (by decide)
    rw [ha]
    decide

/-- C3: occurrences of one resolved name are merged into a single net delta
before the ledger is touched; a name with net delta zero is neither written to
the ledger nor mentioned in the reply; in particular [(alice,+2),(alice,-2)]
leaves the store untouched and produces no reply. -/
theorem subject_merge_net_zero_drop (store : Store) (g : String) (subs : List Subject) :
    (∀ n, mapGet (marshalSubjects subs) n = netDelta subs n) ∧
    (∀ n, netDelta subs n = 0 →
      lookupKarma (ModKarma store g subs).store.entities g n =
        lookupKarma store.entities g n ∧
      (∀ r, (ModKarma store g subs).reply = some r → ∀ k, (n, k) ∉ r)) ∧
    ModKarma store g [⟨"alice".data, 2⟩, ⟨"alice".data, -2⟩] = ⟨store, none⟩ := by
  refine ⟨mapGet_marshalSubjects subs, ?_, ?_⟩
  · intro n hzero
    have hkeyzero : ∀ p ∈ marshalSubjects subs, p.2 ≠ 0 → p.1 ≠ n := by
      intro p hp hp2 hpn
      have := mapGet_of_mem (marshalSubjects subs) (nodup_keys_marshalSubjects subs) p hp
      rw [hpn, mapGet_marshalSubjects, hzero] at this
      exact hp2 this.symm
    constructor
    · rw [ModKarma_entities]
      exact lookup_modLoop_frame g _ store.entities [] g n
        (fun p hp hp2 hgn => hkeyzero p hp hp2 hgn.2.symm)
    · intro r hr k hk
      rw [ModKarma_reply] at hr
      by_cases h1 : (modLoop g (marshalSubjects subs) store.entities []).2.isEmpty
      · rw [if_pos h1] at hr
        cases hr
      · rw [if_neg h1] at hr
        by_cases h2 : (firstOrCreateConfig store.configs g).1.noAnnounce
        · rw [if_pos h2] at hr
          cases hr
        · rw [if_neg h2] at hr
          have hrr : r = (modLoop g (marshalSubjects subs) store.entities []).2 :=
            (Option.some_inj.mp hr).symm
          rw [hrr] at hk
          rcases modLoop_reply_mem g _ store.entities [] (n, k) hk with h3 | ⟨p, hp, hp2, hp3⟩
          · cases h3
          · exact hkeyzero p hp hp2 hp3.symm
  · have hm : marshalSubjects [⟨"alice".data, 2⟩, ⟨"alice".data, -2⟩] =
        [("alice".data, 0)] := by decide
    unfold ModKarma
    rw [hm]
    simp [modLoop]

/-- Witness for C3: a +2 and a -2 on @bob and bob (merged across the @-prefix) net
to zero and leaves bob's stored karma untouched and unmentioned. -/
theorem subject_merge_net_zero_drop_check :
    lookupKarma (ModKarma ⟨[⟨"g", "bob".data, 5⟩], []⟩ "g"
        [⟨"@bob".data, 2⟩, ⟨"bob".data, -2⟩]).store.entities "g" "bob".data =
      lookupKarma [⟨"g", "bob".data, 5⟩] "g" "bob".data ∧
    (∀ r, (ModKarma ⟨[⟨"g", "bob".data, 5⟩], []⟩ "g"
        [⟨"@bob".data, 2⟩, ⟨"bob".data, -2⟩]).reply = some r → ∀ k, ("bob".data, k) ∉ r) := by
  have h := subject_merge_net_zero_drop ⟨[⟨"g", "bob".data, 5⟩], []⟩ "g"
    [⟨"@bob".data, 2⟩, ⟨"bob".data, -2⟩]
  exact h.2.1 "bob".data (by decide)

/-- C4: after SetAnnounce(g, false) a BumpKarma with some nonzero net delta
still mutates the ledger exactly as it would with announcements on, but sends
no reply; after SetAnnounce(g, true) the same mutation replies; SetAnnounce
stores NoAnnounce = !on; the asynchronous consumer likewise drops a
ChangedKarma whose Announce flag is false. -/
theorem announce_gating (store : Store) (g : String) (subs : List Subject)
    (h : ∃ p ∈ marshalSubjects subs, p.2 ≠ 0) :
    (ModKarma (SetAnnounce store g false) g subs).reply = none ∧
    (∃ r, (ModKarma (SetAnnounce store g true) g subs).reply = some r ∧ r ≠ []) ∧
    (ModKarma (SetAnnounce store g false) g subs).store.entities =
      (ModKarma (SetAnnounce store g true) g subs).store.entities ∧
    (∀ b : Bool, lookupNoAnnounce (SetAnnounce store g b).configs g = some (!b)) ∧
    (∀ rt who, consume { changedKarma := some ⟨rt, false, who⟩ } = .suppressed) ∧
    (∀ rt who, consume { changedKarma := some ⟨rt, true, who⟩ } =
      .sentLevels rt.channelID who) := by
  have hne : ¬ (modLoop g (marshalSubjects subs) store.entities []).2 = [] := by
    rw [modLoop_reply_empty_iff]
    rintro ⟨-, hall⟩
    obtain ⟨p, hp, hp2⟩ := h
    exact hp2 (hall p hp)
  have hemp : (modLoop g (marshalSubjects subs) store.entities []).2.isEmpty = false := by
    rw [List.isEmpty_eq_false_iff_exists_mem]
    exact List.exists_mem_of_ne_nil _ hne
  refine ⟨?_, ?_, ?_, ?_, fun rt who => rfl, fun rt who => rfl⟩
  · rw [ModKarma_reply]
    have : (SetAnnounce store g false).entities = store.entities := rfl
    rw [this, if_neg (by rw [hemp]; exact Bool.false_ne_true)]
    rw [firstOrCreateConfig_after_set]
    simp
  · refine ⟨(modLoop g (marshalSubjects subs) store.entities []).2, ?_, hne⟩
    rw [ModKarma_reply]
    have : (SetAnnounce store g true).entities = store.entities := rfl
    rw [this, if_neg (by rw [hemp]; exact Bool.false_ne_true)]
    rw [firstOrCreateConfig_after_set]
    simp
  · rw [ModKarma_entities, ModKarma_entities]
    rfl
  · intro b
    unfold lookupNoAnnounce
    rw [findConfig_setAnnounce]
    rfl

/-- Witness for C4 at a concrete store and a +1 bump. -/
theorem announce_gating_check :
    (ModKarma (SetAnnounce ⟨[], []⟩ "g" false) "g" [⟨"ann".data, 1⟩]).reply = none ∧
    (∃ r, (ModKarma (SetAnnounce ⟨[], []⟩ "g" true) "g" [⟨"ann".data, 1⟩]).reply = some r ∧
      r ≠ []) := by
  have h := announce_gating ⟨[], []⟩ "g" [⟨"ann".data, 1⟩]
    ⟨("ann".data, 1), by decide, by decide⟩
  exact ⟨h.1, h.2.1⟩

/-- C5: legacy CheckKarma is a pure read: the store is returned unchanged (no
entry or config is created or mutated), every reply line reports the stored
karma or 0 for an absent entry, every mentioned name (resolved) is reported,
and the reply does not depend on the guild's config at all. -/
theorem check_karma_pure_read (store : Store) (g : String) (msg : Chars) :
    (CheckKarma store g msg).1 = store ∧
    (∀ line ∈ (CheckKarma store g msg).2,
       line.2 = (lookupKarma store.entities g line.1).getD 0) ∧
    (∀ s ∈ ParseSubjects msg,
       (resolveName s.name, (lookupKarma store.entities g (resolveName s.name)).getD 0)
         ∈ (CheckKarma store g msg).2) ∧
    (∀ cs : List Config, (CheckKarma ⟨store.entities, cs⟩ g msg).2 = (CheckKarma store g msg).2) := by
  refine ⟨rfl, ?_, checkKarma_mem_reply store g msg, fun cs => rfl⟩
  intro line hline
  unfold CheckKarma at hline
  simp only [] at hline
  obtain ⟨p, -, hp2⟩ := List.mem_map.mp hline
  rw [← hp2]

/-- Witness for C5: a query mentioning @bob reports bob's stored 7. -/
theorem check_karma_pure_read_check :
    (CheckKarma ⟨[⟨"g", "bob".data, 7⟩], []⟩ "g" "@bob".data).1 =
      ⟨[⟨"g", "bob".data, 7⟩], []⟩ ∧
    ("bob".data, (7 : Int)) ∈ (CheckKarma ⟨[⟨"g", "bob".data, 7⟩], []⟩ "g" "@bob".data).2 := by
  have h := check_karma_pure_read ⟨[⟨"g", "bob".data, 7⟩], []⟩ "g" "@bob".data
  have h2 := h.2.2.1 ⟨"@bob".data, 0⟩ (by decide)
  have e1 : resolveName "@bob".data = "bob".data := by decide
  rw [e1] at h2
  have e2 : (lookupKarma [⟨"g", "bob".data, 7⟩] "g" "bob".data).getD 0 = 7 := by decide
  rw [e2] at h2
  exact ⟨h.1, h2⟩

/-- C6 counterexample: the legacy CheckKarma resolves names through
marshalSubjects, a Go map, so the two mentions of alice in "alice alice"
collapse into one reply line instead of one line per requested occurrence. -/
theorem karma_query_duplicates_merged_cx :
    (CheckKarma ⟨[], []⟩ "g" "alice alice".data).2 = [("alice".data, 0)] ∧
    (ParseSubjects "alice alice".data).length = 2 := by
  decide

/-- C6 (amended): for every karma-query body, duplicate resolved names are
merged before the store is read: each distinct resolved name yields exactly one
reply line (the reply's keys are duplicate-free) reporting its stored karma or
0, and every mentioned name is reported once. -/
theorem karma_query_merged_per_name (store : Store) (g : String) (msg : Chars) :
    ((CheckKarma store g msg).2.map Prod.fst).Nodup ∧
    (∀ s ∈ ParseSubjects msg,
       (resolveName s.name, (lookupKarma store.entities g (resolveName s.name)).getD 0)
         ∈ (CheckKarma store g msg).2) := by
  refine ⟨?_, checkKarma_mem_reply store g msg⟩
  unfold CheckKarma
  simp only [List.map_map]
  have : (Prod.fst ∘ fun p : Chars × Int =>
      (p.1, (lookupKarma store.entities g p.1).getD 0)) = Prod.fst := by
    funext p
    rfl
  rw [this]
  exact nodup_keys_marshalSubjects _

/-- Witness for C6 (amended) on the duplicate query "alice alice". -/
theorem karma_query_merged_per_name_check :
    (((CheckKarma ⟨[], []⟩ "g" "alice alice".data).2.map Prod.fst)).Nodup ∧
    ("alice".data, (0 : Int)) ∈ (CheckKarma ⟨[], []⟩ "g" "alice alice".data).2 := by
  have h := karma_query_merged_per_name ⟨[], []⟩ "g" "alice alice".data
  have h2 := h.2 ⟨"alice".data, 0⟩ (by decide)
  have e1 : resolveName "alice".data = "alice".data := by decide
  rw [e1] at h2
  have e2 : (lookupKarma ([] : List Entity) "g" "alice".data).getD 0 = 0 := by decide
  rw [e2] at h2
  exact ⟨h.1, h2⟩

/-- C7: board-limit parsing differs between the two paths: with no first token
both use the default 10; with a first token that is not a positive non-zero
integer the asynchronous path fails with InvalidArgument and publishes no
request (only the usage message is sent), while the legacy synchronous path
silently falls back to the default 10. -/
theorem board_limit_divergence (body tok : Chars) (rest : List Chars) (g ch : String) :
    (fields body = [] →
       legacyBoardLimit body = 10 ∧ ParseLeaderboardArgs body = (10, none)) ∧
    (fields body = tok :: rest → (∀ k, atoi tok = some k → k ≤ 0) →
       (ParseLeaderboardArgs body).2 = some .invalidArgument ∧
       legacyBoardLimit body = 10 ∧
       publishLeaderboard g ch body = ([], [.sendMessage ch limitUsage]) ∧
       publishLoserboard g ch body = ([], [.sendMessage ch limitUsage])) := by
  constructor
  · intro hempty
    unfold legacyBoardLimit ParseLeaderboardArgs
    rw [hempty]
    exact ⟨rfl, rfl⟩
  · intro htok hbad
    have hparse : ParseLeaderboardArgs body = (0, some .invalidArgument) := by
      unfold ParseLeaderboardArgs
      rw [htok]
      cases ha : atoi tok with
      | none => simp [ha]
      | some k =>
        have hk := hbad k ha
        simp only [ha]
        rw [if_neg (by omega)]
    have hlegacy : legacyBoardLimit body = 10 := by
      unfold legacyBoardLimit
      rw [htok]
      cases ha : atoi tok with
      | none => simp [ha]
      | some k =>
        have hk := hbad k ha
        simp only [ha]
        rw [if_neg (by omega)]
    refine ⟨by rw [hparse], hlegacy, ?_, ?_⟩
    · unfold publishLeaderboard
      rw [hparse]
      simp
    · unfold publishLoserboard
      rw [hparse]
      simp

/-- Witness for C7 at the spec's own example body "-1". -/
theorem board_limit_divergence_check :
    (ParseLeaderboardArgs "-1".data).2 = some .invalidArgument ∧
    legacyBoardLimit "-1".data = 10 ∧
    publishLeaderboard "g" "ch" "-1".data = ([], [.sendMessage "ch" limitUsage]) := by
  have h := (board_limit_divergence "-1".data "-1".data [] "g" "ch").2
    (by decide)
    (by
      intro k hk
      rw [show atoi "-1".data = some (-1) from by decide] at hk
      cases hk
      decide)
  exact ⟨h.1, h.2.1, h.2.2.1⟩

/-- C8: the failing input "@popple karma" (an empty karma-query body, a
MissingArgument) gets the ❓ reaction, but the publisher's KarmaHandler case
lacks the early return of the other error paths, so a RequestCheckKarma with
the zero-value name list is still published — the claim (and §7 of the spec)
say no request event may be published after a user-input parse error. -/
theorem karma_parse_error_still_publishes :
    publisherHandle "@popple".data "g" "ch" "mid" "@popple karma".data =
      ([{ requestCheckKarma := some ⟨⟨"ch"⟩, "g", []⟩ }],
       [.addReaction "ch" "mid" questionEmoji]) ∧
    (ParseKarmaArgs (Route "@popple".data "@popple karma".data).2).2 =
      some .missingArgument := by
  decide

theorem populated_publishAnnounce (g ch mid : String) (body : Chars) :
    ∀ e ∈ (publishAnnounce g ch mid body).1, populatedFields e = 1 := by
  intro e he
  unfold publishAnnounce at he
  simp only [] at he
  cases hp : (ParseAnnounceArgs body).2 with
  | some err =>
    rw [hp] at he
    simp at he
  | none =>
    rw [hp] at he
    simp at he
    subst he
    rfl

theorem populated_publishBumpKarma (g ch : String) (body : Chars) :
    ∀ e ∈ (publishBumpKarma g ch body).1, populatedFields e = 1 := by
  intro e he
  unfold publishBumpKarma at he
  simp at he
  subst he
  rfl

theorem populated_publishCheckKarma (g ch mid : String) (body : Chars) :
    ∀ e ∈ (publishCheckKarma g ch mid body).1, populatedFields e = 1 := by
  intro e he
  unfold publishCheckKarma at he
  simp only [] at he
  cases hp : (ParseKarmaArgs body).2 with
  | some err =>
    rw [hp] at he
    simp at he
    subst he
    rfl
  | none =>
    rw [hp] at he
    simp at he
    subst he
    rfl

theorem populated_publishLeaderboard (g ch : String) (body : Chars) :
    ∀ e ∈ (publishLeaderboard g ch body).1, populatedFields e = 1 := by
  intro e he
  unfold publishLeaderboard at he
  simp only [] at he
  by_cases hp : (ParseLeaderboardArgs body).2 = some .invalidArgument
  · rw [if_pos hp] at he
    simp at he
  · rw [if_neg hp] at he
    simp at he
    subst he
    rfl

theorem populated_publishLoserboard (g ch : String) (body : Chars) :
    ∀ e ∈ (publishLoserboard g ch body).1, populatedFields e = 1 := by
  intro e he
  unfold publishLoserboard at he
  simp only [] at he
  by_cases hp : (ParseLeaderboardArgs body).2 = some .invalidArgument
  · rw [if_pos hp] at he
    simp at he
  · rw [if_neg hp] at he
    simp at he
    subst he
    rfl

/-- C9 counterexample: an envelope populating both CheckedKarma and
ChangedAnnounce (two fields) is not discarded by the consumer: the first
matching case, CheckedKarma, is processed and a message is sent. -/
theorem envelope_multi_field_processed_cx :
    populatedFields { checkedKarma := some ⟨⟨"ch"⟩, []⟩,
                      changedAnnounce := some ⟨⟨"ch", "mid"⟩⟩ } = 2 ∧
    consume { checkedKarma := some ⟨⟨"ch"⟩, []⟩,
              changedAnnounce := some ⟨⟨"ch", "mid"⟩⟩ } = .sentLevels "ch" [] ∧
    consume { checkedKarma := some ⟨⟨"ch"⟩, []⟩,
              changedAnnounce := some ⟨⟨"ch", "mid"⟩⟩ } ≠ .discarded := by
  decide

/-- C9 (amended): every event the publisher constructs populates exactly one
envelope field, and the consumer discards an envelope with zero populated
fields; but an envelope with more than one populated field is not discarded:
the first populated field in the switch order (CheckedKarma first) is
processed regardless of the other fields. -/
theorem envelope_field_cardinality (pfx : Chars) (g ch mid : String) (content : Chars) :
    (∀ e ∈ (publisherHandle pfx g ch mid content).1, populatedFields e = 1) ∧
    (∀ e : Event, populatedFields e = 0 → consume e = .discarded) ∧
    (∀ e : Event, ∀ rsp, e.checkedKarma = some rsp →
       consume e = .sentLevels rsp.replyTo.channelID rsp.who) := by
  refine ⟨?_, ?_, ?_⟩
  · intro e he
    unfold publisherHandle at he
    simp only [] at he
    cases hroute : (Route pfx content).1 <;> rw [hroute] at he
    case announceHandler => exact populated_publishAnnounce _ _ _ _ e he
    case bumpKarmaHandler => exact populated_publishBumpKarma _ _ _ e he
    case karmaHandler => exact populated_publishCheckKarma _ _ _ _ e he
    case leaderboardHandler => exact populated_publishLeaderboard _ _ _ e he
    case loserboardHandler => exact populated_publishLoserboard _ _ _ e he
  · intro e h
    unfold populatedFields at h
    have h6 : countOpt e.checkedKarma = 0 := by omega
    have h7 : countOpt e.checkedLeaderboard = 0 := by omega
    have h8 : countOpt e.checkedLoserboard = 0 := by omega
    have h9 : countOpt e.changedAnnounce = 0 := by omega
    have h10 : countOpt e.changedKarma = 0 := by omega
    rw [countOpt_eq_zero] at h6 h7 h8 h9 h10
    unfold consume
    rw [h6, h7, h8, h9, h10]
  · intro e rsp h
    unfold consume
    rw [h]

/-- Witness for C9 (amended) at a concrete bump message and the empty envelope. -/
theorem envelope_field_cardinality_check :
    (∀ e ∈ (publisherHandle "@p".data "g" "ch" "mid" "alice++".data).1,
       populatedFields e = 1) ∧
    consume {} = .discarded := by
  have h := envelope_field_cardinality "@p".data "g" "ch" "mid" "alice++".data
  exact ⟨h.1, h.2.1 {} (by decide)⟩

/-- C10: marshalSubjects strips at most one leading '@', and only from names
longer than one character: "@" stays "@", "@@x" resolves to "@x", and only a
single-@-prefixed name merges with its bare counterpart. -/
theorem at_strip_edge_cases :
    resolveName "@".data = "@".data ∧
    resolveName "@@x".data = "@x".data ∧
    (∀ n : Chars, resolveName n = n ∨
       ∃ c rest, n = '@' :: c :: rest ∧ resolveName n = c :: rest) ∧
    marshalSubjects [⟨"@alice".data, 1⟩, ⟨"alice".data, 1⟩] = [("alice".data, 2)] ∧
    marshalSubjects [⟨"@@alice".data, 1⟩, ⟨"alice".data, 1⟩] =
      [("@alice".data, 1), ("alice".data, 1)] := by
  refine ⟨by decide, by decide, ?_, by decide, by decide⟩
  intro n
  match n with
  | [] => exact Or.inl rfl
  | [c] =>
    refine Or.inl ?_
    simp [resolveName]
  | c :: c' :: rest =>
    by_cases hc : c = '@'
    · subst hc
      refine Or.inr ⟨c', rest, rfl, ?_⟩
      simp [resolveName]
    · refine Or.inl ?_
      simp [resolveName, hc]

/-- C2: router classification: a text that is the configured prefix followed
by a single space and one of the keywords announce, karma, top, bot routes to
the matching kind with the keyword's trailing text as body; a text not
starting with the prefix routes to BumpKarma with the whole text as body; a
prefixed text matching no keyword routes to BumpKarma with the prefix-stripped
remainder as body; the source's own prefix-stripping test case is included. -/
theorem route_classification (pfx tail : Chars) :
    Route pfx (pfx ++ (' ' :: "announce".data ++ tail)) = (.announceHandler, tail) ∧
    Route pfx (pfx ++ (' ' :: "karma".data ++ tail)) = (.karmaHandler, tail) ∧
    Route pfx (pfx ++ (' ' :: "top".data ++ tail)) = (.leaderboardHandler, tail) ∧
    Route pfx (pfx ++ (' ' :: "bot".data ++ tail)) = (.loserboardHandler, tail) ∧
    (∀ text, startsWithChars text pfx = false →
       Route pfx text = (.bumpKarmaHandler, text)) ∧
    (∀ text, startsWithChars text pfx = true →
       (∀ kw ∈ muxKeywords, startsWithChars (text.drop pfx.length) (' ' :: kw.1) = false ∧
          startsWithChars (text.drop pfx.length) kw.1 = false) →
       Route pfx text = (.bumpKarmaHandler, text.drop pfx.length)) ∧
    Route "@colt".data "@colt announce on".data = (.announceHandler, " on".data) := by
  refine ⟨?_, ?_, ?_, ?_, ?_, ?_, by decide⟩
  · unfold Route
    rw [if_pos (startsWithChars_append _ _)]
    simp [List.drop_left, muxKeywords, startsWithChars, startsWithChars_nil, List.find?]
  · unfold Route
    rw [if_pos (startsWithChars_append _ _)]
    simp [List.drop_left, muxKeywords, startsWithChars, startsWithChars_nil, List.find?]
  · unfold Route
    rw [if_pos (startsWithChars_append _ _)]
    simp [List.drop_left, muxKeywords, startsWithChars, startsWithChars_nil, List.find?]
  · unfold Route
    rw [if_pos (startsWithChars_append _ _)]
    simp [List.drop_left, muxKeywords, startsWithChars, startsWithChars_nil, List.find?]
  · intro text h
    unfold Route
    rw [if_neg (by simp [h])]
  · intro text h hkw
    unfold Route
    rw [if_pos h]
    simp only []
    have hfind : muxKeywords.find? (fun kw =>
        startsWithChars (text.drop pfx.length) (' ' :: kw.1) ||
        startsWithChars (text.drop pfx.length) kw.1) = none := by
      rw [List.find?_eq_none]
      intro kw hkwmem
      have hk := hkw kw hkwmem
      simp [hk.1, hk.2]
    rw [hfind]

/-- Witness for C2: an unprefixed text routes to BumpKarma unchanged, and a
prefixed karma command routes to the karma kind. -/
theorem route_classification_check :
    Route "@p".data "hello".data = (.bumpKarmaHandler, "hello".data) ∧
    Route "@p".data ("@p".data ++ (' ' :: "karma".data ++ " x".data)) =
      (.karmaHandler, " x".data) := by
  have h := route_classification "@p".data " x".data
  exact ⟨h.2.2.2.2.1 "hello".data (by decide), h.2.1⟩

end Popple
